import Mathlib

/-!
Verification development for the Lily-Core orchestration service.

The definitions below are a shallow embedding of the C++ sources:

* `lily/config/AppConfig.hpp`  — key rotation and key-list mutators;
* `src/controller/SystemController.cpp` — the masked `/config` view;
* `src/services/SessionService.cpp` — `touch_session`;
* `src/services/MemoryService.cpp` — `get_conversation`;
* `src/services/Service.cpp` — `execute_tool` and its per-server attempts;
* `src/services/AgentLoopService.cpp` — the step-based agent loop and the
  bounded buffer of completed loops.

Machine integers of the source are modelled as `Nat` (no arithmetic in the
embedded fragment ever approaches an overflow boundary), wall-clock instants
as abstract `Nat` values supplied by the caller, and the external world (LLM
endpoint, MCP tool servers) as oracle functions passed explicitly.
-/

namespace Lily

/-! ### Config store (`AppConfig.hpp`) -/

/-- State of `AppConfig` restricted to the fields the claims are about:
the Gemini key list, the `gemini_enabled` flag, the round-robin cursor
(`_current_key_index` in the source), the model id and the system prompt. -/
structure AppConfig where
  gemini_api_keys : List String
  gemini_enabled : Bool
  current_key_index : Nat
  gemini_model : String
  gemini_system_prompt : String
  deriving Repr, DecidableEq

/-- `AppConfig::getCurrentGeminiApiKey` (the spec calls it `next_key()`):
returns the empty string when the key list is empty; otherwise returns the
key at `current_key_index % size` and advances the cursor to
`(index + 1) % size`. Returns the key together with the updated state. -/
def getCurrentGeminiApiKey (c : AppConfig) : String × AppConfig :=
  if h : c.gemini_api_keys.isEmpty then
    ("", c)
  else
    let n := c.gemini_api_keys.length
    have hn : 0 < n := by
      cases hk : c.gemini_api_keys with
      | nil => rw [hk] at h; simp at h
      | cons a l => simp [hk, n]
    let index := c.current_key_index % n
    (c.gemini_api_keys.get ⟨index, Nat.mod_lt _ hn⟩,
     { c with current_key_index := (index + 1) % n })

/-- Iterate `getCurrentGeminiApiKey` `m` times, collecting the returned keys
in call order together with the final state. -/
def nextKeys (c : AppConfig) : Nat → List String × AppConfig
  | 0 => ([], c)
  | m + 1 =>
    let (k, c') := getCurrentGeminiApiKey c
    let (ks, c'') := nextKeys c' m
    (k :: ks, c'')

/-- `AppConfig::setGeminiApiKeys`: replace the key list by the non-empty
entries of the argument, recompute `gemini_enabled`, reset the cursor. -/
def setGeminiApiKeys (c : AppConfig) (keys : List String) : AppConfig :=
  let ks := keys.filter (fun k => k ≠ "")
  { c with gemini_api_keys := ks, gemini_enabled := !ks.isEmpty,
           current_key_index := 0 }

/-- `AppConfig::addGeminiApiKey`: append the key if it is non-empty and
recompute `gemini_enabled`; the cursor is not touched. -/
def addGeminiApiKey (c : AppConfig) (key : String) : AppConfig :=
  if key = "" then c
  else
    let ks := c.gemini_api_keys ++ [key]
    { c with gemini_api_keys := ks, gemini_enabled := !ks.isEmpty }

/-- `AppConfig::removeGeminiApiKey`: erase every occurrence of the key
(`std::remove` + `erase`), recompute `gemini_enabled`, reset the cursor. -/
def removeGeminiApiKey (c : AppConfig) (key : String) : AppConfig :=
  let ks := c.gemini_api_keys.filter (fun k => k ≠ key)
  { c with gemini_api_keys := ks, gemini_enabled := !ks.isEmpty,
           current_key_index := 0 }

/-- The `GEMINI_API_KEYS` branch of `AppConfig::loadFromEnvironment`: the
variable value is split on commas by a `std::getline` loop that pushes only
non-empty tokens. `String.splitOn` differs from the `getline` loop only on
trailing empty tokens, which the non-empty filter discards either way, so
filtering `splitOn` yields exactly the pushed keys. The cursor is not
touched by this branch. -/
def loadGeminiKeysFromEnv (c : AppConfig) (env_value : String) : AppConfig :=
  let ks := (env_value.splitOn ",").filter (fun k => k ≠ "")
  { c with gemini_api_keys := ks, gemini_enabled := !ks.isEmpty }

/-! ### Masked config view (`SystemController::getConfig`) -/

/-- Per-key masking in `SystemController::getConfig`: keys longer than four
characters are shown as `"..."` plus their last four characters, all other
keys as `"****"`. -/
def maskKey (key : String) : String :=
  if key.length > 4 then "..." ++ key.takeRight 4 else "****"

/-- The fields of the JSON object built by `SystemController::getConfig`. -/
structure MaskedConfigView where
  gemini_api_keys : List String
  gemini_api_key_count : Nat
  gemini_model : String
  gemini_system_prompt : String
  deriving Repr, DecidableEq

/-- `SystemController::getConfig`: the masked key list, the key count, the
model id and the system prompt, read from the config store. -/
def getConfig (c : AppConfig) : MaskedConfigView :=
  { gemini_api_keys := c.gemini_api_keys.map maskKey,
    gemini_api_key_count := c.gemini_api_keys.length,
    gemini_model := c.gemini_model,
    gemini_system_prompt := c.gemini_system_prompt }

/-- `std::map::find` on the association-list model: the value stored under a
key, when present. -/
def assocFind {β : Type} : List (String × β) → String → Option β
  | [], _ => none
  | (k, v) :: rest, u => if k = u then some v else assocFind rest u

/-! ### Session tracker (`SessionService.cpp`) -/

/-- `SessionInfo` with instants as abstract `Nat` ticks. -/
structure SessionInfo where
  user_id : String
  start_time : Nat
  last_activity : Nat
  active : Bool
  deriving Repr, DecidableEq

/-- The session table (`std::map<std::string, SessionInfo>`), modelled as an
association list with at most one entry per key. -/
abbrev SessionMap := List (String × SessionInfo)

/-- `SessionService::touch_session`: look the user up; only when an entry
exists and is active, set its `last_activity` to `now`; otherwise leave the
table untouched. -/
def touch_session (m : SessionMap) (user_id : String) (now : Nat) : SessionMap :=
  match m with
  | [] => []
  | (k, si) :: rest =>
    if k = user_id then
      if si.active then (k, { si with last_activity := now }) :: rest
      else (k, si) :: rest
    else (k, si) :: touch_session rest user_id now

/-! ### Memory store (`MemoryService.cpp`) -/

/-- A conversation message; the timestamp is an abstract tick. -/
structure Message where
  role : String
  content : String
  timestamp : Nat
  deriving Repr, DecidableEq

/-- The conversation store (`std::map<std::string, std::vector<Message>>`),
modelled as an association list with at most one entry per key. -/
abbrev ConversationMap := List (String × List Message)

/-- `MemoryService::get_conversation`: when the user id is absent, insert an
empty vector under that id; then return the stored vector (together with the
updated store). -/
def get_conversation (m : ConversationMap) (user_id : String) :
    List Message × ConversationMap :=
  match assocFind m user_id with
  | some conv => (conv, m)
  | none => ([], m ++ [(user_id, [])])

/-! ### Tool executor (`Service::execute_tool`) -/

/-- The aspects of a parsed JSON response body that
`Service::execute_tool` inspects: the `status` field when present as a
string, presence of `result` and `content` fields, and the `message`
field when present as a string. -/
structure ToolBody where
  status : Option String
  has_result : Bool
  has_content : Bool
  message : Option String
  deriving Repr, DecidableEq

/-- Outcome of one `execute_tool_on_server` attempt as seen from
`execute_tool`: either a returned body, or an exception propagating out of
the attempt (caught by the `catch` in `execute_tool`), carrying `e.what()`. -/
inductive AttemptOutcome where
  | body (b : ToolBody)
  | exn (what : String)
  deriving Repr, DecidableEq

/-- The success test of `execute_tool`:
`result.value("status","") == "success" || result.contains("result") ||
result.contains("content")`. -/
def isSuccessBody (b : ToolBody) : Bool :=
  b.status.getD "" = "success" || b.has_result || b.has_content

/-- The error-detail string `execute_tool` records for one failed attempt. -/
def recordError (server_url : String) (o : AttemptOutcome) : String :=
  match o with
  | .body b =>
    "Server: " ++ server_url ++ " - " ++
      (match b.message with
       | some msg => "Message: " ++ msg
       | none => "Unknown error")
  | .exn what => "Server: " ++ server_url ++ " - Exception: " ++ what

/-- Result of `execute_tool`: a success body returned as-is, or the
`\x7bstatus:"error", message, error_details\x7d` object built at the end. -/
inductive ExecToolResult where
  | success (b : ToolBody)
  | error (message : String) (error_details : List String)
  deriving Repr, DecidableEq

/-- The numbered aggregation of error details
(`"\n" + std::to_string(i+1) + ". " + error_details[i]`). -/
def numberedDetails : Nat → List String → String
  | _, [] => ""
  | i, e :: rest => "\n" ++ toString i ++ ". " ++ e ++ numberedDetails (i + 1) rest

/-- The `message` field of the final error object of `execute_tool`. -/
def aggregatedMessage (error_details : List String) : String :=
  "Tool not found or failed to execute. Details: " ++
    (if error_details.isEmpty then "No servers available or discovered."
     else numberedDetails 1 error_details)

/-- The per-server loop of `Service::execute_tool` over `_discovered_servers`,
carrying the error details accumulated so far. `respond` is the oracle for
`execute_tool_on_server`. -/
def executeToolGo (respond : String → AttemptOutcome) :
    List String → List String → ExecToolResult
  | [], error_details => .error (aggregatedMessage error_details) error_details
  | server_url :: rest, error_details =>
    match respond server_url with
    | .body b =>
      if isSuccessBody b then .success b
      else executeToolGo respond rest
        (error_details ++ [recordError server_url (.body b)])
    | .exn what =>
      executeToolGo respond rest
        (error_details ++ [recordError server_url (.exn what)])

/-- `Service::execute_tool`: try each discovered server in order, return the
first success body, otherwise the aggregated error object. The tool name and
parameters only flow into the oracle, so they are absorbed into `respond`. -/
def execute_tool (servers : List String) (respond : String → AttemptOutcome) :
    ExecToolResult :=
  executeToolGo respond servers []

/-- The servers `execute_tool` actually queries, in query order. -/
def attemptedServers (respond : String → AttemptOutcome) :
    List String → List String
  | [] => []
  | server_url :: rest =>
    match respond server_url with
    | .body b =>
      if isSuccessBody b then [server_url]
      else server_url :: attemptedServers respond rest
    | .exn _ => server_url :: attemptedServers respond rest

/-- Whether one attempt counts as a success for `execute_tool`. -/
def isSuccessAttempt (o : AttemptOutcome) : Bool :=
  match o with
  | .body b => isSuccessBody b
  | .exn _ => false

/-! ### Agent loop (`AgentLoopService.cpp`, `models/AgentLoop.hpp`) -/

inductive AgentStepType where
  | THINKING
  | TOOL_CALL
  | RESPONSE
  deriving Repr, DecidableEq

/-- `AgentStep` restricted to the claim-relevant fields; tool parameters and
results are carried as their serialized (`dump()`) forms, timestamps and
durations are omitted. -/
structure AgentStep where
  step_number : Nat
  type : AgentStepType
  reasoning : String
  tool_name : String
  tool_parameters : String
  tool_result : String
  deriving Repr, DecidableEq

/-- `AgentLoop` restricted to the claim-relevant fields. -/
structure AgentLoop where
  user_id : String
  user_message : String
  steps : List AgentStep
  final_response : String
  completed : Bool
  deriving Repr, DecidableEq

/-- Shape of a Gemini response as far as `execute_agent_step` inspects it:
`candidates[0].content.parts[0].text`. `emptyObject` is the
`nlohmann::json::object()` returned by `call_gemini_with_tools` on any
failure. A `part` is represented by its `text` string. -/
inductive GeminiJson where
  | emptyObject
  | response (candidates : List (Option (List String)))
  deriving Repr, DecidableEq

/-- The candidate-text extraction at the top of `execute_agent_step`:
requires a non-empty `candidates` array whose first element has a `content`
with a non-empty `parts` array, and yields `parts[0].text`. -/
def extractCandidateText (j : GeminiJson) : Option String :=
  match j with
  | .emptyObject => none
  | .response candidates =>
    match candidates.head? with
    | none => none
    | some content =>
      match content with
      | none => none
      | some parts => parts.head?

/-- The fields `execute_agent_step` reads out of a parsed `TOOL_CALL` JSON
object: `tool_name`, `reasoning` (defaulted to `"No reasoning provided"` by
`value`), and the serialized `parameters` (defaulted to the empty object). -/
structure ToolCallData where
  tool_name : String
  reasoning : String
  parameters : String
  deriving Repr, DecidableEq

/-- The external world of one agent-loop run: the Gemini response to the
prompt of each step (`gemini n` answers the call made with `step_number = n`;
the prompt text is absorbed into the oracle), the `nlohmann::json::parse` +
field extraction of a `TOOL_CALL:` payload (`Except.error` carries
`e.what()` of the thrown exception), and `Service::execute_tool` composed
with `dump()` (a serialized result per tool name and serialized params). -/
structure LoopEnv where
  gemini : Nat → GeminiJson
  parseToolCall : String → Except String ToolCallData
  execToolDump : String → String → String

/-- The `find(prefix) == 0` test used throughout `AgentLoopService`: does
`s` start with `p`? Spelled out over the character lists (equivalent to
`String.startsWith`, which the kernel cannot evaluate). -/
def strStartsWith (s p : String) : Bool :=
  p.data.isPrefixOf s.data

/-- `AgentLoopService::execute_agent_step`: classify the LLM text and build
the recorded step; returns the step and the `step_result` string handed back
to `process_with_tools`. -/
def execute_agent_step (env : LoopEnv) (step_number : Nat) : AgentStep × String :=
  let step0 : AgentStep :=
    { step_number := step_number, type := .THINKING, reasoning := "",
      tool_name := "", tool_parameters := "", tool_result := "" }
  match extractCandidateText (env.gemini step_number) with
  | some llm_response =>
    if strStartsWith llm_response "TOOL_CALL:" then
      match env.parseToolCall (llm_response.drop 10) with
      | .ok tc =>
        let result := env.execToolDump tc.tool_name tc.parameters
        ({ step0 with type := .TOOL_CALL, reasoning := tc.reasoning,
                      tool_name := tc.tool_name,
                      tool_parameters := tc.parameters,
                      tool_result := result }, result)
      | .error what =>
        ({ step0 with type := .THINKING,
                      reasoning := "Error parsing tool call: " ++ what },
         "Error: Failed to parse tool call")
    else if strStartsWith llm_response "FINAL_RESPONSE:" then
      ({ step0 with type := .RESPONSE,
                    reasoning := "Decided to provide direct response" },
       llm_response)
    else
      ({ step0 with type := .THINKING, reasoning := llm_response },
       "Continue analysis")
  | none =>
    ({ step0 with type := .THINKING, reasoning := "Analyzing request..." },
     "Continue analysis")

/-- The safety message of `process_with_tools`. -/
def safetyMessage : String :=
  "I\x27m having trouble processing this request. Please try again with a simpler question."

/-- The `while (true)` loop of `AgentLoopService::process_with_tools`,
accumulating the recorded steps. Mirrors the source: run the step; when the
step result starts with `FINAL_RESPONSE:`, stop with the suffix after the
prefix; otherwise increment the step counter and stop with the safety
message once it exceeds 20. The loop terminates because `21 - step_number`
strictly decreases; that quantity is carried as the structural `fuel`
argument, maintained at exactly `21 - step_number`, so the fuel-exhausted
base case is unreachable (`processLoop_fuel_irrelevant` below shows the
result never depends on the fuel as long as it is at least
`21 - step_number`). -/
def processLoop (env : LoopEnv) :
    Nat → Nat → List AgentStep → List AgentStep × String
  | 0, _, steps => (steps, safetyMessage)
  | fuel + 1, step_number, steps =>
    let st := (execute_agent_step env step_number).1
    let step_result := (execute_agent_step env step_number).2
    let steps' := steps ++ [st]
    if strStartsWith step_result "FINAL_RESPONSE:" then
      (steps', step_result.drop 15)
    else if step_number + 1 > 20 then
      (steps', safetyMessage)
    else
      processLoop env fuel (step_number + 1) steps'

/-- `AgentLoopService::process_with_tools`: run the loop from
`step_number = 1` with no recorded steps and fuel `20 = 21 - 1` (context
building only feeds the prompt, which the oracle absorbs). Returns the
steps and `final_response`. -/
def process_with_tools (env : LoopEnv) : List AgentStep × String :=
  processLoop env 20 1 []

/-- Modelled from the spec: `AppConfig::getGeminiApiKey`, called by
`run_loop` and `call_gemini_with_tools`, is absent from the sources (only
`getCurrentGeminiApiKey` and `peekNextGeminiApiKey` exist). Section 4.1 of
the spec describes the credential accessor as `next_key()` — "returning the
current key and advancing the cursor modulo the key count (returns empty
string if none)" — which is `getCurrentGeminiApiKey`. -/
def getGeminiApiKey (c : AppConfig) : String × AppConfig :=
  getCurrentGeminiApiKey c

/-- `AgentLoopService::run_loop`: when the configured key is empty, return
the error string without running the loop; otherwise run
`process_with_tools` and build the completed `AgentLoop` that is stored in
the buffer. Returns the response, the stored loop (if any) and the updated
config. -/
def run_loop (c : AppConfig) (env : LoopEnv)
    (user_message user_id : String) :
    String × Option AgentLoop × AppConfig :=
  let api_key := (getGeminiApiKey c).1
  let c' := (getGeminiApiKey c).2
  if api_key = "" then
    ("Error: GEMINI_API_KEY not configured", none, c')
  else
    let steps := (process_with_tools env).1
    let response := (process_with_tools env).2
    (response,
     some { user_id := user_id, user_message := user_message,
            steps := steps, final_response := response, completed := true },
     c')

/-- `AgentLoopService::call_gemini_with_tools` at the granularity the claims
need: an empty key short-circuits to `nlohmann::json::object()`; otherwise
the HTTP exchange is an oracle returning `some body` on a 200 response and
`none` on a non-200 status or a thrown exception, both of which end in
`return nlohmann::json::object()`. -/
def call_gemini_with_tools (api_key : String) (net : Option GeminiJson) :
    GeminiJson :=
  if api_key = "" then .emptyObject
  else
    match net with
    | some body => body
    | none => .emptyObject

/-- The agent-loop buffer update in `run_loop`: `push_back`, then erase the
first element when the size exceeds 10. -/
def pushLoop (store : List AgentLoop) (l : AgentLoop) : List AgentLoop :=
  let store' := store ++ [l]
  if store'.length > 10 then store'.drop 1 else store'

/-! ### Invariants and concrete fixtures used by the theorems below -/

/-- The key-list invariant of `AppConfig`: no stored key is empty and
`gemini_enabled` mirrors non-emptiness of the key list. -/
def ConfigKeyInv (c : AppConfig) : Prop :=
  (∀ k ∈ c.gemini_api_keys, k ≠ "") ∧
    c.gemini_enabled = !c.gemini_api_keys.isEmpty

instance (c : AppConfig) : Decidable (ConfigKeyInv c) := by
  unfold ConfigKeyInv; infer_instance

/-- A config whose key list is empty (the defaults of `AppConfig.hpp`). -/
def emptyKeyConfig : AppConfig :=
  { gemini_api_keys := [], gemini_enabled := false, current_key_index := 0,
    gemini_model := "gemini-2.5-flash",
    gemini_system_prompt := "You are Lily, a helpful AI assistant." }

/-- A config holding two distinct keys. -/
def twoKeyConfig : AppConfig :=
  { gemini_api_keys := ["alpha-key-1", "beta-key-22"], gemini_enabled := true,
    current_key_index := 0, gemini_model := "gemini-2.5-flash",
    gemini_system_prompt := "You are Lily, a helpful AI assistant." }

/-- An environment whose LLM never answers usably: every call yields the
empty object (as after any HTTP failure). -/
def silentEnv : LoopEnv :=
  { gemini := fun _ => .emptyObject,
    parseToolCall := fun _ => .error "parse error",
    execToolDump := fun _ _ => "\x7b\x7d" }

/-- An environment whose LLM immediately answers with a final response. -/
def finalEnv : LoopEnv :=
  { gemini := fun _ => .response [some ["FINAL_RESPONSE: hello"]],
    parseToolCall := fun _ => .error "parse error",
    execToolDump := fun _ _ => "\x7b\x7d" }

/-- A completed loop carrying only a user id, for buffer experiments. -/
def mkLoop (u : String) : AgentLoop :=
  { user_id := u, user_message := "", steps := [], final_response := "",
    completed := true }

/-- A session table with one active and one inactive session. -/
def sampleSessions : SessionMap :=
  [("ua", { user_id := "ua", start_time := 0, last_activity := 1, active := true }),
   ("ub", { user_id := "ub", start_time := 0, last_activity := 2, active := false })]

/-- A config holding one short key, as stored by the unvalidated setters. -/
def shortKeyConfig : AppConfig :=
  { gemini_api_keys := ["abcd"], gemini_enabled := true, current_key_index := 0,
    gemini_model := "gemini-2.5-flash",
    gemini_system_prompt := "You are Lily, a helpful AI assistant." }

/-- A tool-server environment: the first server throws, the second returns
a success body. -/
def respondEx (u : String) : AttemptOutcome :=
  if u = "s1" then .exn "connection refused"
  else .body { status := some "success", has_result := false,
               has_content := false, message := none }

/-- The loop recorded by `run_loop` under `finalEnv`. -/
def finalLoopEx : AgentLoop :=
  { user_id := "u1", user_message := "hi",
    steps := [{ step_number := 1, type := .RESPONSE,
                reasoning := "Decided to provide direct response",
                tool_name := "", tool_parameters := "", tool_result := "" }],
    final_response := " hello", completed := true }

/-! ## Theorems -/

theorem assocFind_append {β : Type} (m l : List (String × β)) (u : String) :
    assocFind (m ++ l) u =
      match assocFind m u with
      | some v => some v
      | none => assocFind l u := by
  induction m with
  | nil => simp [assocFind]
  | cons hd tl ih =>
    obtain ⟨k, v⟩ := hd
    by_cases hk : k = u <;> simp [assocFind, hk, ih]

/-- C7: `touch_session` is the identity on the table when the user is absent
or inactive; on an active session it rewrites only that session's
`last_activity` and leaves every other user's entry untouched. -/
theorem touch_session_frame (m : SessionMap) (u : String) (now : Nat) :
    (assocFind m u = none → touch_session m u now = m)
  ∧ (∀ si, assocFind m u = some si → si.active = false →
      touch_session m u now = m)
  ∧ (∀ si, assocFind m u = some si → si.active = true →
      assocFind (touch_session m u now) u = some { si with last_activity := now }
      ∧ ∀ u', u' ≠ u →
          assocFind (touch_session m u now) u' = assocFind m u') := by
  induction m with
  | nil => simp [assocFind, touch_session]
  | cons hd tl ih =>
    obtain ⟨k, si⟩ := hd
    obtain ⟨ih₁, ih₂, ih₃⟩ := ih
    by_cases hk : k = u
    · subst hk
      refine ⟨?_, ?_, ?_⟩
      · intro h; simp [assocFind] at h
      · intro si' hfind hact
        simp [assocFind] at hfind
        subst hfind
        simp [touch_session, hact]
      · intro si' hfind hact
        simp [assocFind] at hfind
        subst hfind
        refine ⟨?_, ?_⟩
        · simp [touch_session, hact, assocFind]
        · intro u' hu'
          simp [touch_session, hact, assocFind, Ne.symm hu']
    · refine ⟨?_, ?_, ?_⟩
      · intro h
        simp [assocFind, hk] at h
        simp [touch_session, hk, ih₁ h]
      · intro si' hfind hact
        simp [assocFind, hk] at hfind
        simp [touch_session, hk, ih₂ si' hfind hact]
      · intro si' hfind hact
        simp [assocFind, hk] at hfind
        obtain ⟨h₁, h₂⟩ := ih₃ si' hfind hact
        refine ⟨?_, ?_⟩
        · simp [touch_session, hk, assocFind, h₁]
        · intro u' hu'
          by_cases hku' : k = u'
          · subst hku'
            simp [touch_session, hk, assocFind]
          · simp [touch_session, hk, assocFind, hku', h₂ u' hu']

/-- C7 witness: touching the active session `ua` at tick 5 updates its
`last_activity` to 5. -/
theorem touch_session_frame_witness :
    assocFind sampleSessions "ua" =
      some { user_id := "ua", start_time := 0, last_activity := 1, active := true }
    ∧ assocFind (touch_session sampleSessions "ua" 5) "ua" =
      some { user_id := "ua", start_time := 0, last_activity := 5, active := true } :=
  ⟨by decide,
   ((touch_session_frame sampleSessions "ua" 5).2.2
     { user_id := "ua", start_time := 0, last_activity := 1, active := true }
     (by decide) (by decide)).1⟩

/-- C9: `get_conversation` returns the stored conversation (empty when the
user is absent), afterwards the user id is a key of the store mapped to the
returned value, every other key is untouched, and when the user was already
present the store is unchanged. -/
theorem get_conversation_spec (m : ConversationMap) (u : String) :
    (get_conversation m u).1 = (assocFind m u).getD []
  ∧ assocFind (get_conversation m u).2 u = some (get_conversation m u).1
  ∧ (∀ u', u' ≠ u → assocFind (get_conversation m u).2 u' = assocFind m u')
  ∧ ((assocFind m u).isSome = true → (get_conversation m u).2 = m) := by
  cases hfind : assocFind m u with
  | some conv =>
    simp [get_conversation, hfind]
  | none =>
    refine ⟨?_, ?_, ?_, ?_⟩
    · simp [get_conversation, hfind]
    · simp [get_conversation, hfind, assocFind_append, assocFind]
    · intro u' hu'
      simp [get_conversation, hfind, assocFind_append, assocFind,
        Ne.symm hu']
      cases assocFind m u' <;> simp
    · simp [hfind]

/-- C9 witness: reading an absent user inserts an empty conversation. -/
theorem get_conversation_spec_witness :
    (get_conversation [] "u1").1 = []
    ∧ assocFind (get_conversation [] "u1").2 "u1" = some [] :=
  ⟨(get_conversation_spec [] "u1").1,
   (get_conversation_spec [] "u1").2.1⟩

/-- C10: every key-list mutator leaves the store without empty keys and with
`gemini_enabled` mirroring non-emptiness (`setGeminiApiKeys` and the env
load establish this outright, `addGeminiApiKey` and `removeGeminiApiKey`
preserve it); `setGeminiApiKeys` and `removeGeminiApiKey` reset the rotation
cursor while `addGeminiApiKey` and the env load leave it alone. -/
theorem config_key_invariant (c : AppConfig) (keys : List String)
    (key env_value : String) :
    (ConfigKeyInv (setGeminiApiKeys c keys)
      ∧ (setGeminiApiKeys c keys).current_key_index = 0)
  ∧ (ConfigKeyInv c → ConfigKeyInv (addGeminiApiKey c key))
  ∧ (addGeminiApiKey c key).current_key_index = c.current_key_index
  ∧ (ConfigKeyInv c → ConfigKeyInv (removeGeminiApiKey c key))
  ∧ (removeGeminiApiKey c key).current_key_index = 0
  ∧ (ConfigKeyInv (loadGeminiKeysFromEnv c env_value)
      ∧ (loadGeminiKeysFromEnv c env_value).current_key_index =
          c.current_key_index) := by
  refine ⟨⟨⟨?_, rfl⟩, rfl⟩, ?_, ?_, ?_, rfl, ⟨?_, rfl⟩, rfl⟩
  · intro k hk
    simp [setGeminiApiKeys] at hk
    exact hk.2
  · rintro ⟨hne, hen⟩
    by_cases hkey : key = ""
    · have hid : addGeminiApiKey c key = c := by simp [addGeminiApiKey, hkey]
      rw [hid]
      exact ⟨hne, hen⟩
    · refine ⟨?_, ?_⟩
      · intro k hk
        simp [addGeminiApiKey, hkey] at hk
        rcases hk with hk | hk
        · exact hne k hk
        · simpa [hk] using hkey
      · simp [addGeminiApiKey, hkey]
  · by_cases hkey : key = "" <;> simp [addGeminiApiKey, hkey]
  · rintro ⟨hne, _⟩
    refine ⟨?_, rfl⟩
    intro k hk
    simp [removeGeminiApiKey] at hk
    exact hne k hk.1
  · intro k hk
    simp [loadGeminiKeysFromEnv] at hk
    exact hk.2

/-- C10 witness: `setGeminiApiKeys` with a list containing an empty entry
stores only the non-empty keys, enables Gemini, and resets the cursor. -/
theorem config_key_invariant_witness :
    ConfigKeyInv (setGeminiApiKeys twoKeyConfig ["k-one", "", "k-two"])
    ∧ (setGeminiApiKeys twoKeyConfig ["k-one", "", "k-two"]).current_key_index = 0 :=
  (config_key_invariant twoKeyConfig ["k-one", "", "k-two"] "" "").1

/-- C8 counterexample: a stored key of length 4 is rendered as `"****"`,
not as `"..."` followed by its last four characters. -/
theorem getConfig_mask_counterexample :
    (getConfig shortKeyConfig).gemini_api_keys = ["****"]
    ∧ ("****" : String) ≠ "..." ++ String.takeRight "abcd" 4 := by
  constructor
  · rfl
  · decide

/-- C8 (amended): `getConfig` renders a key longer than four characters as
`"..."` plus its last four characters and any shorter key as `"****"`,
reports the key count, the model id and the system prompt, and the rendering
of a key depends only on its length and its last four characters (so at most
the last four characters of any stored key are disclosed). -/
theorem getConfig_masked_view (c : AppConfig) :
    (getConfig c).gemini_api_keys.length = c.gemini_api_keys.length
  ∧ (∀ i, i < c.gemini_api_keys.length →
      (getConfig c).gemini_api_keys.getD i "" =
        (if (c.gemini_api_keys.getD i "").length > 4
         then "..." ++ (c.gemini_api_keys.getD i "").takeRight 4
         else "****"))
  ∧ (getConfig c).gemini_api_key_count = c.gemini_api_keys.length
  ∧ (getConfig c).gemini_model = c.gemini_model
  ∧ (getConfig c).gemini_system_prompt = c.gemini_system_prompt
  ∧ (∀ k1 k2 : String, k1.length = k2.length → k1.takeRight 4 = k2.takeRight 4 →
      maskKey k1 = maskKey k2) := by
  refine ⟨by simp [getConfig], ?_, rfl, rfl, rfl, ?_⟩
  · intro i hi
    have hget : (getConfig c).gemini_api_keys.getD i "" =
        maskKey (c.gemini_api_keys.getD i "") := by
      simp [getConfig]
      rw [List.getElem?_eq_getElem hi]
      simp
    rw [hget, maskKey]
  · intro k1 k2 hlen htr
    simp [maskKey, hlen, htr]

/-- C8 witness: on the one-key config the rendered entry is `"****"`. -/
theorem getConfig_masked_view_witness :
    0 < shortKeyConfig.gemini_api_keys.length
    ∧ (getConfig shortKeyConfig).gemini_api_keys.getD 0 "" =
        (if (shortKeyConfig.gemini_api_keys.getD 0 "").length > 4
         then "..." ++ (shortKeyConfig.gemini_api_keys.getD 0 "").takeRight 4
         else "****") :=
  ⟨by decide, (getConfig_masked_view shortKeyConfig).2.1 0 (by decide)⟩

theorem foldl_pushLoop (seq : List AgentLoop) :
    ∀ s0 : List AgentLoop, s0.length ≤ 10 →
      List.foldl pushLoop s0 seq = (s0 ++ seq).drop (s0.length + seq.length - 10) := by
  induction seq with
  | nil =>
    intro s0 h
    simp only [List.foldl_nil, List.append_nil, List.length_nil]
    have hz : s0.length + 0 - 10 = 0 := by omega
    rw [hz, List.drop_zero]
  | cons l seq ih =>
    intro s0 h
    rw [List.foldl_cons]
    by_cases hlen : s0.length + 1 > 10
    · have hl10 : s0.length = 10 := by omega
      have hp : pushLoop s0 l = (s0 ++ [l]).drop 1 := by
        simp [pushLoop, hlen]
      rw [hp, ih _ (by simp [List.length_drop]; omega)]
      have h1 : ((s0 ++ [l]).drop 1).length = 10 := by
        simp [List.length_drop, hl10]
      rw [h1]
      have h2 : (s0 ++ [l]).drop 1 ++ seq = ((s0 ++ [l]) ++ seq).drop 1 :=
        (List.drop_append_of_le_length (by simp)).symm
      rw [h2, List.drop_drop]
      have h3 : (s0 ++ [l]) ++ seq = s0 ++ l :: seq := by
        rw [List.append_assoc, List.singleton_append]
      rw [h3]
      congr 1
      simp only [List.length_cons]
      omega
    · have hp : pushLoop s0 l = s0 ++ [l] := by
        simp [pushLoop]
        omega
      rw [hp, ih _ (by simp; omega)]
      have h3 : (s0 ++ [l]) ++ seq = s0 ++ l :: seq := by
        rw [List.append_assoc, List.singleton_append]
      rw [h3]
      congr 1
      simp only [List.length_append, List.length_cons, List.length_nil]
      omega

/-- C6 counterexample: after one completed loop of user `A` followed by ten
completed loops of user `B`, the buffer retains no loop of `A` at all, even
though `A` has a single (hence among its ten most recent) completed loop. -/
theorem agent_loop_buffer_counterexample :
    ((List.foldl pushLoop [] (mkLoop "A" :: List.replicate 10 (mkLoop "B"))).countP
        (fun l => l.user_id == "A")) = 0
    ∧ ((mkLoop "A" :: List.replicate 10 (mkLoop "B")).countP
        (fun l => l.user_id == "A")) = 1
    ∧ (List.foldl pushLoop [] (mkLoop "A" :: List.replicate 10 (mkLoop "B"))).length = 10 := by
  decide

/-- C6 (amended): the buffer of completed loops is a single global ring of
capacity 10 shared by all users: after any sequence of completed loops it
holds exactly the last ten of them (all of them while there are at most
ten), the oldest being evicted first regardless of which user it belongs
to. -/
theorem agent_loop_buffer_global (seq : List AgentLoop) :
    List.foldl pushLoop [] seq = seq.drop (seq.length - 10)
    ∧ (List.foldl pushLoop [] seq).length ≤ 10 := by
  have h := foldl_pushLoop seq [] (by simp)
  simp only [List.nil_append, List.length_nil, Nat.zero_add] at h
  refine ⟨h, ?_⟩
  rw [h, List.length_drop]
  omega

theorem executeToolGo_no_success (respond : String → AttemptOutcome) :
    ∀ (servers : List String) (acc : List String),
      (∀ u ∈ servers, isSuccessAttempt (respond u) = false) →
      executeToolGo respond servers acc =
        .error (aggregatedMessage (acc ++ servers.map (fun u => recordError u (respond u))))
               (acc ++ servers.map (fun u => recordError u (respond u))) := by
  intro servers
  induction servers with
  | nil => intro acc _; simp [executeToolGo]
  | cons u rest ih =>
    intro acc h
    have hu : isSuccessAttempt (respond u) = false := h u (by simp)
    have hrest : ∀ v ∈ rest, isSuccessAttempt (respond v) = false :=
      fun v hv => h v (by simp [hv])
    cases hr : respond u
    case body b =>
      have hb : isSuccessBody b = false := by
        simpa [isSuccessAttempt, hr] using hu
      simp only [executeToolGo, hr, hb, Bool.false_eq_true, if_false]
      rw [ih _ hrest]
      simp [hr]
    case exn w =>
      simp only [executeToolGo, hr]
      rw [ih _ hrest]
      simp [hr]

theorem executeToolGo_first_success (respond : String → AttemptOutcome) :
    ∀ (servers : List String) (acc : List String) (u : String),
      servers.find? (fun v => isSuccessAttempt (respond v)) = some u →
      ∃ b, respond u = .body b ∧ isSuccessBody b = true ∧
        executeToolGo respond servers acc = .success b := by
  intro servers
  induction servers with
  | nil => intro acc u h; simp at h
  | cons v rest ih =>
    intro acc u h
    by_cases hv : isSuccessAttempt (respond v) = true
    · rw [List.find?_cons_of_pos (p := fun v => isSuccessAttempt (respond v)) _ hv] at h
      obtain rfl : v = u := by simpa using h
      cases hr : respond v
      next b =>
        have hb : isSuccessBody b = true := by
          simpa [isSuccessAttempt, hr] using hv
        exact ⟨b, rfl, hb, by simp [executeToolGo, hr, hb]⟩
      next w => simp [isSuccessAttempt, hr] at hv
    · rw [List.find?_cons_of_neg (p := fun v => isSuccessAttempt (respond v)) _ hv] at h
      have hvf : isSuccessAttempt (respond v) = false := by
        simpa using hv
      cases hr : respond v
      next b =>
        have hb : isSuccessBody b = false := by
          simpa [isSuccessAttempt, hr] using hvf
        obtain ⟨b', h1, h2, h3⟩ := ih (acc ++ [recordError v (.body b)]) u h
        exact ⟨b', h1, h2, by simp [executeToolGo, hr, hb, h3]⟩
      next w =>
        obtain ⟨b', h1, h2, h3⟩ := ih (acc ++ [recordError v (.exn w)]) u h
        exact ⟨b', h1, h2, by simp [executeToolGo, hr, h3]⟩

theorem attemptedServers_initial (respond : String → AttemptOutcome) :
    ∀ servers : List String, attemptedServers respond servers <+: servers := by
  intro servers
  induction servers with
  | nil => simp [attemptedServers]
  | cons u rest ih =>
    cases hr : respond u
    case body b =>
      by_cases hb : isSuccessBody b = true
      · exact ⟨rest, by simp [attemptedServers, hr, hb]⟩
      · obtain ⟨t, ht⟩ := ih
        exact ⟨t, by simp [attemptedServers, hr, hb, ht]⟩
    case exn w =>
      obtain ⟨t, ht⟩ := ih
      exact ⟨t, by simp [attemptedServers, hr, ht]⟩

/-- C3: `execute_tool` queries a prefix of the discovered servers in
discovery order (hence each server at most once when the discovered set has
no duplicates); when some server answers with a success body (`status ==
"success"`, or a `result` or `content` field) it returns the first such
body; when no server does, it returns the aggregated error object carrying
one recorded detail per failed attempt. It is a total function, so no
exception escapes it. -/
theorem execute_tool_spec (servers : List String)
    (respond : String → AttemptOutcome) :
    (attemptedServers respond servers <+: servers)
  ∧ (servers.Nodup → (attemptedServers respond servers).Nodup)
  ∧ (∀ u, servers.find? (fun v => isSuccessAttempt (respond v)) = some u →
      ∃ b, respond u = .body b ∧ isSuccessBody b = true ∧
        execute_tool servers respond = .success b)
  ∧ ((∀ u ∈ servers, isSuccessAttempt (respond u) = false) →
      execute_tool servers respond =
        .error (aggregatedMessage (servers.map (fun u => recordError u (respond u))))
               (servers.map (fun u => recordError u (respond u)))
      ∧ (servers.map (fun u => recordError u (respond u))).length = servers.length) := by
  refine ⟨attemptedServers_initial respond servers, ?_, ?_, ?_⟩
  · intro hnd
    exact hnd.sublist (attemptedServers_initial respond servers).sublist
  · intro u h
    exact executeToolGo_first_success respond servers [] u h
  · intro h
    refine ⟨?_, by simp⟩
    have := executeToolGo_no_success respond servers [] h
    simpa [execute_tool] using this

/-- C3 witness: with server `s1` throwing and `s2` succeeding, the first
success is found at `s2`. -/
theorem execute_tool_spec_witness :
    (["s1", "s2"].find? (fun v => isSuccessAttempt (respondEx v)) = some "s2")
    ∧ ∃ b, respondEx "s2" = .body b ∧ isSuccessBody b = true ∧
        execute_tool ["s1", "s2"] respondEx = .success b :=
  ⟨by decide,
   (execute_tool_spec ["s1", "s2"] respondEx).2.2.1 "s2" (by decide)⟩

theorem getCurrentGeminiApiKey_of_ne (c : AppConfig) (h : c.gemini_api_keys ≠ []) :
    getCurrentGeminiApiKey c =
      (c.gemini_api_keys.getD
          (c.current_key_index % c.gemini_api_keys.length) "",
       { c with current_key_index :=
           (c.current_key_index + 1) % c.gemini_api_keys.length }) := by
  have hne : c.gemini_api_keys.isEmpty = false := by
    simp [List.isEmpty_iff, h]
  have hn : 0 < c.gemini_api_keys.length := List.length_pos.2 h
  simp only [getCurrentGeminiApiKey, hne, Bool.false_eq_true, dif_neg,
    not_false_iff]
  refine Prod.ext_iff.2 ⟨?_, ?_⟩
  · rw [List.getD_eq_getElem _ _ (Nat.mod_lt _ hn)]
    rfl
  · show ({ c with current_key_index :=
        (c.current_key_index % c.gemini_api_keys.length + 1) %
          c.gemini_api_keys.length } : AppConfig) = _
    congr 1
    exact Nat.mod_add_mod _ _ _

theorem nextKeys_snd_keys : ∀ (m : Nat) (c : AppConfig),
    (nextKeys c m).2.gemini_api_keys = c.gemini_api_keys := by
  intro m
  induction m with
  | zero => intro c; rfl
  | succ m ih =>
    intro c
    by_cases h : c.gemini_api_keys = []
    · have he : getCurrentGeminiApiKey c = ("", c) := by
        simp [getCurrentGeminiApiKey, List.isEmpty_iff, h]
      simp [nextKeys, he, ih]
    · rw [show nextKeys c (m + 1) =
          ((getCurrentGeminiApiKey c).1 :: (nextKeys (getCurrentGeminiApiKey c).2 m).1,
            (nextKeys (getCurrentGeminiApiKey c).2 m).2) from rfl]
      rw [getCurrentGeminiApiKey_of_ne c h]
      simp [ih]

theorem nextKeys_snd_cursor : ∀ (m : Nat) (c : AppConfig),
    c.gemini_api_keys ≠ [] → 1 ≤ m →
    (nextKeys c m).2.current_key_index =
      (c.current_key_index + m) % c.gemini_api_keys.length := by
  intro m
  induction m with
  | zero => intro c _ hm; omega
  | succ m ih =>
    intro c h _
    rw [show nextKeys c (m + 1) =
        ((getCurrentGeminiApiKey c).1 :: (nextKeys (getCurrentGeminiApiKey c).2 m).1,
          (nextKeys (getCurrentGeminiApiKey c).2 m).2) from rfl]
    rw [getCurrentGeminiApiKey_of_ne c h]
    rcases Nat.eq_zero_or_pos m with hm | hm
    · subst hm
      simp [nextKeys]
    · have h' : ({ c with current_key_index :=
          (c.current_key_index + 1) % c.gemini_api_keys.length } :
            AppConfig).gemini_api_keys ≠ [] := h
      rw [ih _ h' hm]
      show ((c.current_key_index + 1) % c.gemini_api_keys.length + m) %
          c.gemini_api_keys.length = _
      rw [Nat.mod_add_mod]
      congr 1
      omega

theorem nextKeys_fst : ∀ (m : Nat) (c : AppConfig), c.gemini_api_keys ≠ [] →
    (nextKeys c m).1 =
      (List.range m).map (fun t =>
        c.gemini_api_keys.getD
          ((c.current_key_index + t) % c.gemini_api_keys.length) "") := by
  intro m
  induction m with
  | zero => intro c _; simp [nextKeys]
  | succ m ih =>
    intro c h
    rw [show nextKeys c (m + 1) =
        ((getCurrentGeminiApiKey c).1 :: (nextKeys (getCurrentGeminiApiKey c).2 m).1,
          (nextKeys (getCurrentGeminiApiKey c).2 m).2) from rfl]
    rw [getCurrentGeminiApiKey_of_ne c h]
    have h' : ({ c with current_key_index :=
        (c.current_key_index + 1) % c.gemini_api_keys.length } :
          AppConfig).gemini_api_keys ≠ [] := h
    rw [ih _ h']
    rw [List.range_succ_eq_map, List.map_cons, List.map_map]
    dsimp only
    congr 1
    refine List.map_congr_left ?_
    intro t _
    dsimp only [Function.comp]
    rw [Nat.mod_add_mod]
    congr 2
    omega

theorem nextKeys_block (c : AppConfig) (h : c.gemini_api_keys ≠ []) :
    (nextKeys c c.gemini_api_keys.length).1 =
      c.gemini_api_keys.rotate
        (c.current_key_index % c.gemini_api_keys.length) := by
  have hn : 0 < c.gemini_api_keys.length := List.length_pos.2 h
  rw [nextKeys_fst _ c h]
  apply List.ext_get
  · simp
  · intro i h1 h2
    rw [List.get_map, List.get_range, List.get_rotate]
    rw [List.getD_eq_getElem _ _ (Nat.mod_lt _ hn)]
    simp only [List.get_eq_getElem]
    congr 1
    conv_rhs => rw [Nat.add_comm, Nat.mod_add_mod]

theorem nextKeys_add (a : Nat) : ∀ (b : Nat) (c : AppConfig),
    (nextKeys c (a + b)).1 =
      (nextKeys c a).1 ++ (nextKeys (nextKeys c a).2 b).1
    ∧ (nextKeys c (a + b)).2 = (nextKeys (nextKeys c a).2 b).2 := by
  induction a with
  | zero => intro b c; simp [nextKeys]
  | succ a ih =>
    intro b c
    have hx : a + 1 + b = (a + b) + 1 := by omega
    rw [hx]
    rw [show nextKeys c ((a + b) + 1) =
        ((getCurrentGeminiApiKey c).1 :: (nextKeys (getCurrentGeminiApiKey c).2 (a + b)).1,
          (nextKeys (getCurrentGeminiApiKey c).2 (a + b)).2) from rfl]
    rw [show nextKeys c (a + 1) =
        ((getCurrentGeminiApiKey c).1 :: (nextKeys (getCurrentGeminiApiKey c).2 a).1,
          (nextKeys (getCurrentGeminiApiKey c).2 a).2) from rfl]
    obtain ⟨h1, h2⟩ := ih b (getCurrentGeminiApiKey c).2
    exact ⟨by simp [h1], by simp [h2]⟩

theorem nextKeys_blocks : ∀ (k : Nat) (c : AppConfig), c.gemini_api_keys ≠ [] →
    (nextKeys c (k * c.gemini_api_keys.length)).1 =
      List.join (List.replicate k
        (c.gemini_api_keys.rotate
          (c.current_key_index % c.gemini_api_keys.length))) := by
  intro k
  induction k with
  | zero => intro c _; simp [nextKeys]
  | succ k ih =>
    intro c h
    have hn : 0 < c.gemini_api_keys.length := List.length_pos.2 h
    have hsplit : (k + 1) * c.gemini_api_keys.length =
        c.gemini_api_keys.length + k * c.gemini_api_keys.length := by ring
    rw [hsplit, (nextKeys_add _ _ c).1, nextKeys_block c h]
    have hkeys : (nextKeys c c.gemini_api_keys.length).2.gemini_api_keys =
        c.gemini_api_keys := nextKeys_snd_keys _ c
    have h₁ : (nextKeys c c.gemini_api_keys.length).2.gemini_api_keys ≠ [] := by
      rw [hkeys]; exact h
    have hcur : (nextKeys c c.gemini_api_keys.length).2.current_key_index %
        c.gemini_api_keys.length =
        c.current_key_index % c.gemini_api_keys.length := by
      rw [nextKeys_snd_cursor _ c h hn]
      rw [Nat.mod_mod_of_dvd _ dvd_rfl, Nat.add_mod_right]
    have hb := ih (nextKeys c c.gemini_api_keys.length).2 h₁
    rw [hkeys] at hb
    rw [hcur] at hb
    rw [hb, List.replicate_succ]
    simp

theorem count_join_replicate (l : List String) (key : String) :
    ∀ k : Nat, (List.join (List.replicate k l)).count key = k * l.count key := by
  intro k
  induction k with
  | zero => simp
  | succ k ih =>
    rw [List.replicate_succ]
    simp only [List.flatten_cons, List.count_append, ih]
    ring

/-- C4: with a non-empty key list of length `n`, `k·n` consecutive
`next_key()` calls return the key list rotated to the current cursor,
repeated `k` times — so every key of the list is returned `k` times per
multiplicity (exactly `k` times when the keys are distinct), cycling in
list order starting from the cursor; with an empty key list, `next_key()`
returns the empty string and leaves the state (cursor included)
unchanged. -/
theorem next_key_rotation (c : AppConfig) (k : Nat)
    (h : c.gemini_api_keys ≠ []) :
    ((nextKeys c (k * c.gemini_api_keys.length)).1 =
      List.join (List.replicate k
        (c.gemini_api_keys.rotate
          (c.current_key_index % c.gemini_api_keys.length))))
  ∧ (∀ key, ((nextKeys c (k * c.gemini_api_keys.length)).1.count key) =
      k * c.gemini_api_keys.count key)
  ∧ (c.gemini_api_keys.Nodup →
      ∀ key ∈ c.gemini_api_keys,
        ((nextKeys c (k * c.gemini_api_keys.length)).1.count key) = k)
  ∧ (∀ c' : AppConfig, c'.gemini_api_keys = [] →
      getCurrentGeminiApiKey c' = ("", c')) := by
  have hmain := nextKeys_blocks k c h
  refine ⟨hmain, ?_, ?_, ?_⟩
  · intro key
    rw [hmain, count_join_replicate]
    congr 1
    exact (List.rotate_perm _ _).count_eq key
  · intro hnd key hkey
    rw [hmain, count_join_replicate]
    have h1 : (c.gemini_api_keys.rotate
        (c.current_key_index % c.gemini_api_keys.length)).count key =
        c.gemini_api_keys.count key :=
      (List.rotate_perm _ _).count_eq key
    rw [h1, List.count_eq_one_of_mem hnd hkey, Nat.mul_one]
  · intro c' h'
    simp [getCurrentGeminiApiKey, List.isEmpty_iff, h']

/-- C4 witness: two distinct keys, four calls, each key returned twice. -/
theorem next_key_rotation_witness :
    twoKeyConfig.gemini_api_keys ≠ [] ∧
    ((nextKeys twoKeyConfig (2 * twoKeyConfig.gemini_api_keys.length)).1 =
      List.join (List.replicate 2
        (twoKeyConfig.gemini_api_keys.rotate
          (twoKeyConfig.current_key_index %
            twoKeyConfig.gemini_api_keys.length)))) :=
  ⟨by decide, (next_key_rotation twoKeyConfig 2 (by decide)).1⟩

theorem execute_agent_step_eq_none (env : LoopEnv) (n : Nat)
    (h : extractCandidateText (env.gemini n) = none) :
    execute_agent_step env n =
      ({ step_number := n, type := .THINKING,
         reasoning := "Analyzing request...", tool_name := "",
         tool_parameters := "", tool_result := "" },
       "Continue analysis") := by
  unfold execute_agent_step
  rw [h]

theorem execute_agent_step_eq_tool (env : LoopEnv) (n : Nat) (s : String)
    (tc : ToolCallData)
    (h : extractCandidateText (env.gemini n) = some s)
    (h1 : strStartsWith s "TOOL_CALL:" = true)
    (hp : env.parseToolCall (s.drop 10) = .ok tc) :
    execute_agent_step env n =
      ({ step_number := n, type := .TOOL_CALL, reasoning := tc.reasoning,
         tool_name := tc.tool_name, tool_parameters := tc.parameters,
         tool_result := env.execToolDump tc.tool_name tc.parameters },
       env.execToolDump tc.tool_name tc.parameters) := by
  unfold execute_agent_step
  rw [h]
  simp only [h1, if_true, hp]

theorem execute_agent_step_eq_parse_error (env : LoopEnv) (n : Nat) (s w : String)
    (h : extractCandidateText (env.gemini n) = some s)
    (h1 : strStartsWith s "TOOL_CALL:" = true)
    (hp : env.parseToolCall (s.drop 10) = .error w) :
    execute_agent_step env n =
      ({ step_number := n, type := .THINKING,
         reasoning := "Error parsing tool call: " ++ w, tool_name := "",
         tool_parameters := "", tool_result := "" },
       "Error: Failed to parse tool call") := by
  unfold execute_agent_step
  rw [h]
  simp only [h1, if_true, hp]

theorem execute_agent_step_eq_final (env : LoopEnv) (n : Nat) (s : String)
    (h : extractCandidateText (env.gemini n) = some s)
    (h1 : strStartsWith s "TOOL_CALL:" = false)
    (h2 : strStartsWith s "FINAL_RESPONSE:" = true) :
    execute_agent_step env n =
      ({ step_number := n, type := .RESPONSE,
         reasoning := "Decided to provide direct response", tool_name := "",
         tool_parameters := "", tool_result := "" },
       s) := by
  unfold execute_agent_step
  rw [h]
  simp only [h1, h2, Bool.false_eq_true, if_false, if_true]

theorem execute_agent_step_eq_thinking (env : LoopEnv) (n : Nat) (s : String)
    (h : extractCandidateText (env.gemini n) = some s)
    (h1 : strStartsWith s "TOOL_CALL:" = false)
    (h2 : strStartsWith s "FINAL_RESPONSE:" = false) :
    execute_agent_step env n =
      ({ step_number := n, type := .THINKING, reasoning := s, tool_name := "",
         tool_parameters := "", tool_result := "" },
       "Continue analysis") := by
  unfold execute_agent_step
  rw [h]
  simp only [h1, h2, Bool.false_eq_true, if_false]

theorem execute_agent_step_number (env : LoopEnv) (n : Nat) :
    (execute_agent_step env n).1.step_number = n := by
  cases h : extractCandidateText (env.gemini n) with
  | none => rw [execute_agent_step_eq_none env n h]
  | some s =>
    cases h1 : strStartsWith s "TOOL_CALL:" with
    | true =>
      cases hp : env.parseToolCall (s.drop 10) with
      | ok tc => rw [execute_agent_step_eq_tool env n s tc h h1 hp]
      | error w => rw [execute_agent_step_eq_parse_error env n s w h h1 hp]
    | false =>
      cases h2 : strStartsWith s "FINAL_RESPONSE:" with
      | true => rw [execute_agent_step_eq_final env n s h h1 h2]
      | false => rw [execute_agent_step_eq_thinking env n s h h1 h2]

theorem execute_agent_step_not_final (env : LoopEnv) (n : Nat)
    (hnf : strStartsWith (execute_agent_step env n).2 "FINAL_RESPONSE:" = false) :
    (execute_agent_step env n).1.type ≠ AgentStepType.RESPONSE := by
  cases h : extractCandidateText (env.gemini n) with
  | none =>
    rw [execute_agent_step_eq_none env n h]
    simp
  | some s =>
    cases h1 : strStartsWith s "TOOL_CALL:" with
    | true =>
      cases hp : env.parseToolCall (s.drop 10) with
      | ok tc =>
        rw [execute_agent_step_eq_tool env n s tc h h1 hp]
        simp
      | error w =>
        rw [execute_agent_step_eq_parse_error env n s w h h1 hp]
        simp
    | false =>
      cases h2 : strStartsWith s "FINAL_RESPONSE:" with
      | true =>
        rw [execute_agent_step_eq_final env n s h h1 h2] at hnf
        rw [h2] at hnf
        exact absurd hnf (by simp)
      | false => rw [execute_agent_step_eq_thinking env n s h h1 h2]; simp

theorem snoc_numbering (steps : List AgentStep) (st : AgentStep)
    (h1 : ∀ i (h : i < steps.length), (steps.get ⟨i, h⟩).step_number = i + 1)
    (h2 : st.step_number = steps.length + 1) :
    ∀ i (h : i < (steps ++ [st]).length),
      ((steps ++ [st]).get ⟨i, h⟩).step_number = i + 1 := by
  intro i h
  simp only [List.get_eq_getElem]
  rcases Nat.lt_or_ge i steps.length with hi | hi
  · rw [List.getElem_append_left hi]
    simpa using h1 i hi
  · have hlen : i = steps.length := by
      simp only [List.length_append, List.length_cons, List.length_nil] at h
      omega
    subst hlen
    rw [List.getElem_append_right hi]
    simpa using h2

theorem processLoop_final (env : LoopEnv) (fuel n : Nat)
    (steps : List AgentStep)
    (h : strStartsWith (execute_agent_step env n).2 "FINAL_RESPONSE:" = true) :
    processLoop env (fuel + 1) n steps =
      (steps ++ [(execute_agent_step env n).1],
       (execute_agent_step env n).2.drop 15) := by
  simp only [processLoop, h, if_true]

theorem processLoop_safety (env : LoopEnv) (fuel n : Nat)
    (steps : List AgentStep)
    (h1 : strStartsWith (execute_agent_step env n).2 "FINAL_RESPONSE:" = false)
    (h2 : n + 1 > 20) :
    processLoop env (fuel + 1) n steps =
      (steps ++ [(execute_agent_step env n).1], safetyMessage) := by
  simp only [processLoop, h1, Bool.false_eq_true, if_false, if_pos h2]

theorem processLoop_continue (env : LoopEnv) (fuel n : Nat)
    (steps : List AgentStep)
    (h1 : strStartsWith (execute_agent_step env n).2 "FINAL_RESPONSE:" = false)
    (h2 : ¬n + 1 > 20) :
    processLoop env (fuel + 1) n steps =
      processLoop env fuel (n + 1) (steps ++ [(execute_agent_step env n).1]) := by
  simp only [processLoop, h1, Bool.false_eq_true, if_false, if_neg h2]

theorem processLoop_fuel_irrelevant (env : LoopEnv) :
    ∀ (f1 f2 n : Nat) (steps : List AgentStep),
      21 - n ≤ f1 → 21 - n ≤ f2 → n ≤ 20 →
      processLoop env f1 n steps = processLoop env f2 n steps := by
  intro f1
  induction f1 with
  | zero => intro f2 n steps h1 _ h3; omega
  | succ f1 ih =>
    intro f2 n steps h1 h2 h3
    rcases f2 with _ | f2
    · omega
    cases hf : strStartsWith (execute_agent_step env n).2 "FINAL_RESPONSE:" with
    | true => rw [processLoop_final env _ n steps hf,
        processLoop_final env _ n steps hf]
    | false =>
      by_cases h20 : n + 1 > 20
      · rw [processLoop_safety env _ n steps hf h20,
          processLoop_safety env _ n steps hf h20]
      · rw [processLoop_continue env _ n steps hf h20,
          processLoop_continue env _ n steps hf h20]
        exact ih f2 (n + 1) _ (by omega) (by omega) (by omega)

theorem dropLast_snoc (steps : List AgentStep) (st : AgentStep) :
    (steps ++ [st]).dropLast = steps := by
  simp

theorem processLoop_spec (env : LoopEnv) :
    ∀ (fuel n : Nat) (steps : List AgentStep),
      fuel + n = 21 → 1 ≤ n → n ≤ 20 →
      steps.length = n - 1 →
      (∀ i (h : i < steps.length), (steps.get ⟨i, h⟩).step_number = i + 1) →
      (∀ s ∈ steps, s.type ≠ AgentStepType.RESPONSE) →
      ((processLoop env fuel n steps).1.length ≤ 20
      ∧ (∀ i (h : i < (processLoop env fuel n steps).1.length),
          ((processLoop env fuel n steps).1.get ⟨i, h⟩).step_number = i + 1)
      ∧ (∀ s ∈ (processLoop env fuel n steps).1.dropLast,
          s.type ≠ AgentStepType.RESPONSE)
      ∧ ((∀ m, n ≤ m → m ≤ 20 →
            strStartsWith (execute_agent_step env m).2 "FINAL_RESPONSE:" = false) →
          (processLoop env fuel n steps).2 = safetyMessage
          ∧ (processLoop env fuel n steps).1.length = 20)) := by
  intro fuel
  induction fuel with
  | zero =>
    intro n steps hfuel hn1 hn20 _ _ _
    omega
  | succ fuel ih =>
    intro n steps hfuel hn1 hn20 hlen hnum hnores
    have hstnum : (execute_agent_step env n).1.step_number = n :=
      execute_agent_step_number env n
    have hsnoc : ∀ i (h : i < (steps ++ [(execute_agent_step env n).1]).length),
        ((steps ++ [(execute_agent_step env n).1]).get ⟨i, h⟩).step_number = i + 1 :=
      snoc_numbering steps _ hnum (by rw [hstnum]; omega)
    cases hf : strStartsWith (execute_agent_step env n).2 "FINAL_RESPONSE:" with
    | true =>
      rw [processLoop_final env fuel n steps hf]
      refine ⟨?_, ?_, ?_, ?_⟩
      · simp only [List.length_append, List.length_cons, List.length_nil, hlen]
        omega
      · exact hsnoc
      · rw [dropLast_snoc]
        exact hnores
      · intro hall
        simp [hall n le_rfl hn20] at hf
    | false =>
      by_cases h20 : n + 1 > 20
      · have hn : n = 20 := by omega
        rw [processLoop_safety env fuel n steps hf h20]
        refine ⟨?_, ?_, ?_, ?_⟩
        · simp only [List.length_append, List.length_cons, List.length_nil, hlen]
          omega
        · exact hsnoc
        · rw [dropLast_snoc]
          exact hnores
        · intro _
          refine ⟨rfl, ?_⟩
          simp only [List.length_append, List.length_cons, List.length_nil, hlen]
          omega
      · rw [processLoop_continue env fuel n steps hf h20]
        have hnores' : ∀ s ∈ steps ++ [(execute_agent_step env n).1],
            s.type ≠ AgentStepType.RESPONSE := by
          intro s hs
          rcases List.mem_append.1 hs with h | h
          · exact hnores s h
          · have : s = (execute_agent_step env n).1 := by simpa using h
            rw [this]
            exact execute_agent_step_not_final env n hf
        have hrec := ih (n + 1) (steps ++ [(execute_agent_step env n).1])
          (by omega) (by omega) (by omega)
          (by simp only [List.length_append, List.length_cons, List.length_nil,
                hlen]; omega)
          hsnoc hnores'
        refine ⟨hrec.1, hrec.2.1, hrec.2.2.1, ?_⟩
        intro hall
        exact hrec.2.2.2 (fun m hm1 hm2 => hall m (by omega) hm2)

/-- C1: whenever the configured key is non-empty, `run_loop` stores a
completed loop whose response it returns; the loop executes at most 20
steps; and when no step up to the 20th produces a `FINAL_RESPONSE:` result,
the loop stops after exactly 20 steps — never executing a 21st — with the
safety message as `final_response` and `completed = true`. -/
theorem agent_loop_terminates (c : AppConfig) (env : LoopEnv)
    (user_message user_id : String)
    (hkey : (getGeminiApiKey c).1 ≠ "") :
    ∃ L, (run_loop c env user_message user_id).2.1 = some L
    ∧ (run_loop c env user_message user_id).1 = L.final_response
    ∧ L.completed = true
    ∧ L.steps.length ≤ 20
    ∧ ((∀ m, 1 ≤ m → m ≤ 20 →
          strStartsWith (execute_agent_step env m).2 "FINAL_RESPONSE:" = false) →
        L.final_response = safetyMessage ∧ L.steps.length = 20) := by
  have hspec := processLoop_spec env 20 1 [] (by omega) (by omega) (by omega)
    (by simp) (by intro i h; simp at h) (by intro s hs; simp at hs)
  simp only [run_loop, process_with_tools, if_neg hkey]
  refine ⟨_, rfl, rfl, rfl, hspec.1, ?_⟩
  intro hall
  exact hspec.2.2.2 hall

set_option maxRecDepth 8000 in
/-- C1 witness: a two-key config and an LLM that never answers usably hit
the safety ceiling after exactly 20 steps. -/
theorem agent_loop_terminates_witness :
    (getGeminiApiKey twoKeyConfig).1 ≠ ""
    ∧ (∃ L, (run_loop twoKeyConfig silentEnv "hello" "u1").2.1 = some L
      ∧ (run_loop twoKeyConfig silentEnv "hello" "u1").1 = L.final_response
      ∧ L.completed = true
      ∧ L.steps.length ≤ 20
      ∧ ((∀ m, 1 ≤ m → m ≤ 20 →
            strStartsWith (execute_agent_step silentEnv m).2 "FINAL_RESPONSE:" = false) →
          L.final_response = safetyMessage ∧ L.steps.length = 20)) :=
  ⟨by decide, agent_loop_terminates twoKeyConfig silentEnv "hello" "u1" (by decide)⟩

/-- C2: every loop stored by `run_loop` has its steps numbered
consecutively from 1, contains at most one step of type RESPONSE, and any
RESPONSE step is its last step. -/
theorem agent_loop_step_invariants (c : AppConfig) (env : LoopEnv)
    (user_message user_id : String) (L : AgentLoop)
    (hL : (run_loop c env user_message user_id).2.1 = some L) :
    (∀ i (h : i < L.steps.length), (L.steps.get ⟨i, h⟩).step_number = i + 1)
    ∧ L.steps.countP (fun s => decide (s.type = AgentStepType.RESPONSE)) ≤ 1
    ∧ (∀ i (h : i < L.steps.length),
        (L.steps.get ⟨i, h⟩).type = AgentStepType.RESPONSE →
        i = L.steps.length - 1) := by
  have hspec := processLoop_spec env 20 1 [] (by omega) (by omega) (by omega)
    (by simp) (by intro i h; simp at h) (by intro s hs; simp at hs)
  by_cases hkey : (getGeminiApiKey c).1 = ""
  · simp [run_loop, hkey] at hL
  · simp only [run_loop, process_with_tools, if_neg hkey,
      Option.some.injEq] at hL
    have hsteps : L.steps = (processLoop env 20 1 []).1 := by
      rw [← hL]
    rw [hsteps]
    have hfree := hspec.2.2.1
    have hlast : ∀ i (h : i < (processLoop env 20 1 []).1.length),
        ((processLoop env 20 1 []).1.get ⟨i, h⟩).type = AgentStepType.RESPONSE →
        i = (processLoop env 20 1 []).1.length - 1 := by
      intro i h hresp
      by_contra hne
      have hi : i < (processLoop env 20 1 []).1.length - 1 := by omega
      have hi' : i < (processLoop env 20 1 []).1.dropLast.length := by
        rw [List.length_dropLast]
        exact hi
      have hmem : (processLoop env 20 1 []).1.dropLast.get ⟨i, hi'⟩ ∈
          (processLoop env 20 1 []).1.dropLast := List.get_mem _ _ _
      have heq : (processLoop env 20 1 []).1.dropLast.get ⟨i, hi'⟩ =
          (processLoop env 20 1 []).1.get ⟨i, h⟩ := by
        simp only [List.get_eq_getElem]
        exact List.getElem_dropLast _ _ _
      rw [heq] at hmem
      exact hfree _ hmem hresp
    refine ⟨hspec.2.1, ?_, hlast⟩
    · by_cases hnil : (processLoop env 20 1 []).1 = []
      · rw [hnil]
        simp
      · rw [← List.dropLast_append_getLast hnil, List.countP_append]
        have h0 : (processLoop env 20 1 []).1.dropLast.countP
            (fun s => decide (s.type = AgentStepType.RESPONSE)) = 0 := by
          rw [List.countP_eq_zero]
          intro s hs
          simpa using hfree s hs
        rw [h0]
        simp only [List.countP_cons, List.countP_nil, Nat.zero_add]
        split <;> omega

set_option maxRecDepth 8000 in
/-- C2 witness: the loop stored under `finalEnv` has a single RESPONSE step
numbered 1. -/
theorem agent_loop_step_invariants_witness :
    (run_loop twoKeyConfig finalEnv "hi" "u1").2.1 = some finalLoopEx
    ∧ ((∀ i (h : i < finalLoopEx.steps.length),
        (finalLoopEx.steps.get ⟨i, h⟩).step_number = i + 1)
    ∧ finalLoopEx.steps.countP
        (fun s => decide (s.type = AgentStepType.RESPONSE)) ≤ 1
    ∧ (∀ i (h : i < finalLoopEx.steps.length),
        (finalLoopEx.steps.get ⟨i, h⟩).type = AgentStepType.RESPONSE →
        i = finalLoopEx.steps.length - 1)) :=
  ⟨by decide,
   agent_loop_step_invariants twoKeyConfig finalEnv "hi" "u1" finalLoopEx
     (by decide)⟩

/-- C5 counterexample: with an empty key list, `run_loop` aborts up front
with the configuration error — it records no step at all and its response is
the error string, not the safety message, so the agent loop does not
proceed to the 20-step safety ceiling. -/
theorem empty_key_no_loop_counterexample :
    run_loop emptyKeyConfig silentEnv "hi" "u1" =
      ("Error: GEMINI_API_KEY not configured", none, emptyKeyConfig)
    ∧ ("Error: GEMINI_API_KEY not configured" : String) ≠ safetyMessage := by
  constructor
  · decide
  · decide

/-- C5 (amended): with an empty key list, `next_key()` returns the empty
string and leaves the config unchanged; `run_loop` then aborts immediately
with `"Error: GEMINI_API_KEY not configured"`, storing no loop and
executing no step; `call_gemini_with_tools` invoked with an empty key
returns the empty JSON object, whose candidate extraction yields nothing,
which the step handler would classify as a THINKING step. -/
theorem empty_key_behaviour :
    (∀ c : AppConfig, c.gemini_api_keys = [] →
      getCurrentGeminiApiKey c = ("", c))
  ∧ (∀ (c : AppConfig) (env : LoopEnv) (um uid : String),
      c.gemini_api_keys = [] →
      run_loop c env um uid = ("Error: GEMINI_API_KEY not configured", none, c))
  ∧ (∀ net, call_gemini_with_tools "" net = GeminiJson.emptyObject)
  ∧ extractCandidateText GeminiJson.emptyObject = none
  ∧ (∀ (env : LoopEnv) (n : Nat), env.gemini n = GeminiJson.emptyObject →
      (execute_agent_step env n).1.type = AgentStepType.THINKING
      ∧ (execute_agent_step env n).1.reasoning = "Analyzing request...") := by
  have hempty : ∀ c : AppConfig, c.gemini_api_keys = [] →
      getCurrentGeminiApiKey c = ("", c) := by
    intro c h
    simp [getCurrentGeminiApiKey, List.isEmpty_iff, h]
  refine ⟨hempty, ?_, ?_, rfl, ?_⟩
  · intro c env um uid h
    have hkey : getGeminiApiKey c = ("", c) := hempty c h
    simp [run_loop, hkey]
  · intro net
    simp [call_gemini_with_tools]
  · intro env n h
    have hex : extractCandidateText (env.gemini n) = none := by
      rw [h]
      rfl
    rw [execute_agent_step_eq_none env n hex]
    exact ⟨rfl, rfl⟩

/-- C5 witness: the empty-key fixture triggers the early abort. -/
theorem empty_key_behaviour_witness :
    emptyKeyConfig.gemini_api_keys = []
    ∧ run_loop emptyKeyConfig finalEnv "ping" "u2" =
        ("Error: GEMINI_API_KEY not configured", none, emptyKeyConfig) :=
  ⟨by decide,
   empty_key_behaviour.2.1 emptyKeyConfig finalEnv "ping" "u2" (by decide)⟩

end Lily
